import Mathlib

/-!
Verification of the `recall` persistence core against its specification.

Shallow embedding of:
* `src/tokens.ts`   — token estimation and the token-budget allocator
* `src/chroma.ts`   — sidecar supervisor and cosine-distance migration
* `hooks/post-tool-use.ts` — duplicate suppressor
* `src/session.ts`  — session aggregation

TypeScript numbers are modelled as `Int` (token counts, budgets) or `ℚ`
(similarity scores, distances); strings as `String`; fallible I/O as
`Except`-valued environments whose outcomes parameterise the model.
-/

namespace Recall

/-! ### src/tokens.ts -/

/-- `export const CHARS_PER_TOKEN = 4;` -/
def CHARS_PER_TOKEN : Nat := 4

/-- `estimateTokens(text) = Math.ceil(text.length / CHARS_PER_TOKEN)`. -/
def estimateTokens (text : String) : Int :=
  ((text.length + CHARS_PER_TOKEN - 1) / CHARS_PER_TOKEN : Nat)

/-- The `ScoredMemory` interface of `src/tokens.ts`. -/
structure ScoredMemory where
  id : String
  content : String
  type : String
  project : Option String
  tags : List String
  similarity : ℚ
  created_at : String
  tokens : Int
deriving DecidableEq, Repr

/-- The truncated first item built at `tokens.ts:32`:
content cut to `remaining * CHARS_PER_TOKEN` characters plus the `…` marker,
token cost set to the remaining budget. -/
def truncMem (m : ScoredMemory) (remaining : Int) : ScoredMemory :=
  { m with
    content := m.content.take (remaining * (CHARS_PER_TOKEN : Int)).toNat ++ "…"
    tokens := remaining }

/-- The loop of `applyTokenBudget` (`tokens.ts:25-36`), with the `i === 0`
test carried as the `isFirst` flag (true exactly on the first iteration).
Returns the selected list and the final `remaining` budget. -/
def allocGo (memories : List ScoredMemory) (remaining : Int) (isFirst : Bool) :
    List ScoredMemory × Int :=
  match memories with
  | [] => ([], remaining)
  | m :: rest =>
    if m.tokens ≤ remaining then
      let r := allocGo rest (remaining - m.tokens) false
      (m :: r.1, r.2)
    else if isFirst ∧ 0 < remaining then
      ([truncMem m remaining], 0)
    else
      allocGo rest remaining false

/-- Result record of `applyTokenBudget`. -/
structure AllocResult where
  selected : List ScoredMemory
  tokensUsed : Int
deriving DecidableEq, Repr

/-- `applyTokenBudget(memories, maxTokens)` from `src/tokens.ts:18-38`. -/
def applyTokenBudget (memories : List ScoredMemory) (maxTokens : Int) : AllocResult :=
  let r := allocGo memories maxTokens true
  ⟨r.1, maxTokens - r.2⟩

/-- Total token cost of a list of memories. -/
def sumTokens (l : List ScoredMemory) : Int :=
  (l.map (·.tokens)).sum

/-! ### src/chroma.ts — cosine migration (`migrateToCosinIfNeeded`, lines 57-127)

Every awaited ChromaDB call can throw; outcomes are supplied by a `MigEnv`
environment.  The run is recorded as a list of `MigEv` events (one per
successfully completed effect, in execution order). -/

/-- An embedding vector (`number[]` in the source). -/
abbrev Emb := List Int

def COLLECTION_NAME : String := "memories"

/-- `const BATCH = 500;` (`chroma.ts:83`). -/
def BATCH : Nat := 500

/-- One page returned by `col.get({limit, offset, include})` (`chroma.ts:90-94`). -/
structure MigBatch where
  ids : List String
  documents : List String
  metadatas : List String
  embeddings : List Emb
deriving DecidableEq, Repr

/-- Outcomes of every effect `migrateToCosinIfNeeded` performs, per call site. -/
structure MigEnv where
  /-- `existsSync(COSINE_MARKER)` (`chroma.ts:58`). -/
  markerExists : Bool
  /-- `client.listCollections()` (`chroma.ts:61`): collection names, or a throw. -/
  listCollections : Except Unit (List String)
  /-- `client.getCollection(...)` (`chroma.ts:71`). -/
  getCollection : Except Unit Unit
  /-- `col.count()` (`chroma.ts:72`). -/
  countResult : Except Unit Nat
  /-- `col.get({limit: BATCH, offset, ...})` (`chroma.ts:90`), per offset. -/
  getBatch : Nat → Except Unit MigBatch
  /-- `client.deleteCollection(...)` (`chroma.ts:75` and `chroma.ts:102`). -/
  deleteResult : Except Unit Unit
  /-- `client.getOrCreateCollection({... "hnsw:space": "cosine"})` (`chroma.ts:105`). -/
  createResult : Except Unit Unit
  /-- `newCol.upsert(...)` (`chroma.ts:114`), per batch start index. -/
  upsertResult : Nat → Except Unit Unit
  /-- `writeFileSync(COSINE_MARKER, ...)` (`chroma.ts:67`, `76`, `123`). -/
  writeMarkerResult : Except Unit Unit

/-- Events of a migration run.  `embedCall` is never emitted by the code
modelled here: it stands for a call to the embedding provider, so that the
zero-re-embedding invariant is expressible. -/
inductive MigEv
  | listCols
  | getCol
  | countEv (n : Nat)
  | getBatchEv (offset : Nat)
  | deleteCol
  | createCosine
  | upsertEv (offset : Nat) (ids documents metadatas : List String) (embeddings : List Emb)
  | markerWrite
  | embedCall
deriving DecidableEq, Repr

/-- The batched read loop (`chroma.ts:89-99`): `for (offset = 0; offset < count;
offset += BATCH)`, concatenating each page into the running arrays.  `fuel`
bounds the number of iterations; `fuel = count` is always enough because every
iteration advances `offset` by `BATCH ≥ 1`. -/
def readLoop (env : MigEnv) (count : Nat) : Nat → Nat → Except Unit (List MigEv × MigBatch)
  | _, 0 => .ok ([], ⟨[], [], [], []⟩)
  | offset, fuel + 1 =>
    if offset < count then
      match env.getBatch offset with
      | .error e => .error e
      | .ok b =>
        match readLoop env count (offset + BATCH) fuel with
        | .error e => .error e
        | .ok (evs, acc) =>
          .ok (MigEv.getBatchEv offset :: evs,
               ⟨b.ids ++ acc.ids, b.documents ++ acc.documents,
                b.metadatas ++ acc.metadatas, b.embeddings ++ acc.embeddings⟩)
    else .ok ([], ⟨[], [], [], []⟩)

/-- `array.slice(i, e)` on lists. -/
def sliceL (l : List α) (i e : Nat) : List α := (l.drop i).take (e - i)

/-- The re-insert loop (`chroma.ts:112-120`): `for (i = 0; i < allIds.length;
i += BATCH)` upserting `slice(i, min(i + BATCH, allIds.length))` of each array,
re-using the previously read embeddings.  As in `readLoop`, `fuel =
all.ids.length` iterations always suffice. -/
def upsertLoop (env : MigEnv) (all : MigBatch) : Nat → Nat → Except Unit (List MigEv)
  | _, 0 => .ok []
  | i, fuel + 1 =>
    if i < all.ids.length then
      match env.upsertResult i with
      | .error e => .error e
      | .ok _ =>
        match upsertLoop env all (i + BATCH) fuel with
        | .error e => .error e
        | .ok evs =>
          .ok (MigEv.upsertEv i
                (sliceL all.ids i (min (i + BATCH) all.ids.length))
                (sliceL all.documents i (min (i + BATCH) all.ids.length))
                (sliceL all.metadatas i (min (i + BATCH) all.ids.length))
                (sliceL all.embeddings i (min (i + BATCH) all.ids.length)) :: evs)
    else .ok []

/-- The body of `migrateToCosinIfNeeded` inside the `try` (`chroma.ts:60-123`).
Returns the event trace and whether the marker file was written; an `error`
result is a thrown exception reaching the `catch`. -/
def migrateBody (env : MigEnv) : Except Unit (List MigEv × Bool) :=
  match env.listCollections with
  | .error e => .error e
  | .ok cols =>
    if cols.contains COLLECTION_NAME then
      match env.getCollection with
      | .error e => .error e
      | .ok _ =>
        match env.countResult with
        | .error e => .error e
        | .ok n =>
          if n = 0 then
            match env.deleteResult with
            | .error e => .error e
            | .ok _ =>
              match env.writeMarkerResult with
              | .error e => .error e
              | .ok _ =>
                .ok ([.listCols, .getCol, .countEv n, .deleteCol, .markerWrite], true)
          else
            match readLoop env n 0 n with
            | .error e => .error e
            | .ok (revs, all) =>
              match env.deleteResult with
              | .error e => .error e
              | .ok _ =>
                match env.createResult with
                | .error e => .error e
                | .ok _ =>
                  match upsertLoop env all 0 all.ids.length with
                  | .error e => .error e
                  | .ok uevs =>
                    match env.writeMarkerResult with
                    | .error e => .error e
                    | .ok _ =>
                      .ok ([.listCols, .getCol, .countEv n] ++ revs
                            ++ [.deleteCol, .createCosine] ++ uevs ++ [.markerWrite], true)
    else
      match env.writeMarkerResult with
      | .error e => .error e
      | .ok _ => .ok ([.listCols, .markerWrite], true)

/-- Observable outcome of `migrateToCosinIfNeeded`: the value seen by the
caller (after the `catch`), the event trace, and whether the marker was
written during this run. -/
structure MigOut where
  res : Except Unit Unit
  events : List MigEv
  markerWritten : Bool
deriving Repr

/-- `migrateToCosinIfNeeded` (`chroma.ts:57-127`): early return when the marker
exists; otherwise the whole body runs inside `try { ... } catch` — an internal
throw is logged and swallowed, leaving the marker unwritten. -/
def migrateToCosinIfNeeded (env : MigEnv) : MigOut :=
  if env.markerExists then ⟨.ok (), [], false⟩
  else
    match migrateBody env with
    | .ok (evs, mk) => ⟨.ok (), evs, mk⟩
    | .error _ => ⟨.ok (), [], false⟩

/-- The part of `initChroma` (`chroma.ts:129-151`) relevant to migration: it
awaits `migrateToCosinIfNeeded` and then `getOrCreateCollection` with the
cosine configuration (`chroma.ts:144-148`). -/
def initChromaEvents (env : MigEnv) : List MigEv :=
  (migrateToCosinIfNeeded env).events ++ [MigEv.createCosine]

/-- A stored record of the old collection (the ground truth the store serves). -/
structure MemRec where
  id : String
  document : String
  metadata : String
  embedding : Emb
deriving DecidableEq, Repr

/-- An environment in which the marker is absent, the `memories` collection
holds exactly the records `rs` (served page-wise by `get`), and every store
call succeeds. -/
def goodEnv (rs : List MemRec) : MigEnv where
  markerExists := false
  listCollections := .ok [COLLECTION_NAME]
  getCollection := .ok ()
  countResult := .ok rs.length
  getBatch := fun off =>
    .ok ⟨((rs.drop off).take BATCH).map (·.id),
         ((rs.drop off).take BATCH).map (·.document),
         ((rs.drop off).take BATCH).map (·.metadata),
         ((rs.drop off).take BATCH).map (·.embedding)⟩
  deleteResult := .ok ()
  createResult := .ok ()
  upsertResult := fun _ => .ok ()
  writeMarkerResult := .ok ()

/-- An environment in which the marker is absent and the `memories` collection
exists with zero records; the never-consulted effects are set to throw. -/
def emptyColEnv : MigEnv where
  markerExists := false
  listCollections := .ok [COLLECTION_NAME]
  getCollection := .ok ()
  countResult := .ok 0
  getBatch := fun _ => .error ()
  deleteResult := .ok ()
  createResult := .error ()
  upsertResult := fun _ => .error ()
  writeMarkerResult := .ok ()

/-- Ids re-inserted by the upserts of a trace, in order. -/
def upsertedIds (evs : List MigEv) : List String :=
  (evs.filterMap fun e => match e with | .upsertEv _ ids _ _ _ => some ids | _ => none).flatten

/-- Documents re-inserted by the upserts of a trace, in order. -/
def upsertedDocs (evs : List MigEv) : List String :=
  (evs.filterMap fun e => match e with | .upsertEv _ _ ds _ _ => some ds | _ => none).flatten

/-- Metadatas re-inserted by the upserts of a trace, in order. -/
def upsertedMetas (evs : List MigEv) : List String :=
  (evs.filterMap fun e => match e with | .upsertEv _ _ _ ms _ => some ms | _ => none).flatten

/-- Embedding vectors re-inserted by the upserts of a trace, in order. -/
def upsertedEmbs (evs : List MigEv) : List Emb :=
  (evs.filterMap fun e => match e with | .upsertEv _ _ _ _ es => some es | _ => none).flatten

/-! ### src/chroma.ts — sidecar supervisor (`startChromaServer`, lines 20-55) -/

/-- Outcome of one heartbeat probe: `res.ok`, a non-ok response, or a thrown
fetch error (both of the latter fall through to the launch path). -/
inductive ProbeRes
  | ok
  | notOk
  | err
deriving DecidableEq, Repr

/-- Environment for `startChromaServer`. -/
structure SupEnv where
  /-- The initial heartbeat fetch (`chroma.ts:22-25`). -/
  firstProbe : ProbeRes
  /-- `platform() === "win32"` (`chroma.ts:27`). -/
  win32 : Bool
  /-- `docker ps -a` reports an existing container (`chroma.ts:29-30`). -/
  dockerExisting : Bool
  /-- Heartbeat outcome of the i-th poll iteration (`chroma.ts:47-53`). -/
  polls : Nat → ProbeRes

/-- Events of a supervisor run. -/
inductive SupEv
  | probe
  | dockerStart
  | dockerRun
  | spawnNative
  | pollProbe (i : Nat)
deriving DecidableEq, Repr

/-- The readiness poll (`chroma.ts:47-53`): up to 60 probes, 1s apart, stopping
at the first `res.ok`.  Arguments: current iteration index, tries left. -/
def pollLoop (env : SupEnv) : Nat → Nat → Bool × List SupEv
  | _, 0 => (false, [])
  | i, t + 1 =>
    match env.polls i with
    | .ok => (true, [SupEv.pollProbe i])
    | _ =>
      let r := pollLoop env (i + 1) t
      (r.1, SupEv.pollProbe i :: r.2)

/-- `startChromaServer` (`chroma.ts:20-55`): fast path when the first probe is
`res.ok`; otherwise launch (docker start / docker run on win32, native spawn
elsewhere) and poll up to 60 times, throwing on timeout. -/
def startChromaServer (env : SupEnv) : Except String Unit × List SupEv :=
  if env.firstProbe = ProbeRes.ok then (Except.ok (), [SupEv.probe])
  else
    let launch :=
      if env.win32 then
        if env.dockerExisting then [SupEv.dockerStart] else [SupEv.dockerRun]
      else [SupEv.spawnNative]
    let p := pollLoop env 0 60
    ((if p.1 then Except.ok ()
      else Except.error "ChromaDB server failed to start within 60 seconds"),
     SupEv.probe :: launch ++ p.2)

/-! ### hooks/post-tool-use.ts — duplicate suppressor (`isDuplicate`, lines 154-170) -/

/-- The nearest-neighbour query issued by `isDuplicate` (`n_results: 1`):
either it throws somewhere in `fetch`/`json` (`Except.error`), or it yields
`data.distances?.[0]?.[0]` — `none` when no distance came back. -/
abbrev DupQuery := Except Unit (Option ℚ)

/-- `isDuplicate` (`post-tool-use.ts:154-170`): `distance !== undefined &&
distance < 0.05`, with every failure caught and turned into `false`. -/
def isDuplicate (q : DupQuery) : Bool :=
  match q with
  | .ok (some d) => decide (d < 0.05)
  | .ok none => false
  | .error _ => false

/-! ### src/session.ts — session aggregation

Timestamps (`new Date().toISOString()`) are modelled by a strictly increasing
logical clock; the empty-string `end_time` is `none`.  The sessions collection
(looked up by id, no ranking) is an association list with ChromaDB's
insert-or-replace (`upsert`) and update-in-place (`update`) semantics. -/

abbrev Time := Nat

/-- The metadata object persisted for a session.  String-encoded values
(`memory_count`, JSON arrays) are modelled at their decoded types. -/
structure SessionMeta where
  session_id : String
  start_time : Option Time
  end_time : Option Time
  memory_count : Nat
  projects : List String
  types_seen : List String
deriving DecidableEq, Repr

/-- A persisted session record: document plus metadata. -/
structure SessionRec where
  doc : String
  meta : SessionMeta
deriving DecidableEq, Repr

abbrev SessionStore := List (String × SessionRec)

/-- Fetch by id (`collection.get({ids: [id]})`). -/
def storeGet (s : SessionStore) (id : String) : Option SessionRec :=
  match s with
  | [] => none
  | p :: rest => if p.1 == id then some p.2 else storeGet rest id

/-- Insert-or-replace by id (`collection.upsert`). -/
def storeUpsert (s : SessionStore) (id : String) (r : SessionRec) : SessionStore :=
  match s with
  | [] => [(id, r)]
  | p :: rest => if p.1 == id then (id, r) :: rest else p :: storeUpsert rest id r

/-- Update-in-place by id (`collection.update`); no-op on an absent id. -/
def storeUpdate (s : SessionStore) (id : String) (r : SessionRec) : SessionStore :=
  match s with
  | [] => []
  | p :: rest => if p.1 == id then (id, r) :: rest else p :: storeUpdate rest id r

/-- The module-level counters of `src/session.ts` (lines 6-9). -/
structure SessionState where
  sessionId : Option String
  memoryCount : Nat
  projectsSeen : List String
  typesSeen : List String
deriving DecidableEq, Repr

/-- JS `Set.add`: keeps insertion order, ignores an element already present. -/
def insertSeen (l : List String) (x : String) : List String :=
  if l.contains x then l else l ++ [x]

/-- `trackSave(project, type)` (`session.ts:21-25`): bump the count, record the
project when non-empty (JS truthiness), record the type. -/
def trackSave (st : SessionState) (project ty : String) : SessionState :=
  { st with
    memoryCount := st.memoryCount + 1
    projectsSeen := if project ≠ "" then insertSeen st.projectsSeen project else st.projectsSeen
    typesSeen := insertSeen st.typesSeen ty }

/-- The world a session call acts on: the sessions collection and the clock. -/
structure SessWorld where
  store : SessionStore
  now : Time
deriving Repr

/-- `startSession(sessionId)` (`session.ts:38-54`): upsert the initial record
with `start_time = now`, empty `end_time`, zeroed counters. -/
def startSession (id : String) (w : SessWorld) : SessWorld where
  store := storeUpsert w.store id
    ⟨"Session " ++ id ++ " started", ⟨id, some w.now, none, 0, [], []⟩⟩
  now := w.now + 1

/-- The human-readable summary string of `endSession` (`session.ts:77-81`). -/
def sessionSummary (id : String) (st : SessionState) : String :=
  if st.memoryCount = 0 then "Session " ++ id ++ ": no memories saved."
  else
    "Session " ++ id ++ ": " ++ toString st.memoryCount ++ " memories saved. Types: "
      ++ String.intercalate ", " st.typesSeen ++ ". Projects: "
      ++ (if st.projectsSeen.isEmpty then "none" else String.intercalate ", " st.projectsSeen)
      ++ "."

/-- `endSession(sessionId)` (`session.ts:59-97`): read the existing record back
to recover `start_time` (empty when absent), then write one updated record
with the final counters, the summary, and `end_time = now`. -/
def endSession (id : String) (st : SessionState) (w : SessWorld) : SessWorld where
  store :=
    let startTime :=
      match storeGet w.store id with
      | some r => r.meta.start_time
      | none => none
    storeUpdate w.store id
      ⟨sessionSummary id st,
       ⟨id, startTime, some w.now, st.memoryCount, st.projectsSeen, st.typesSeen⟩⟩
  now := w.now + 1

/-! ## Theorems -/

theorem sumTokens_nil : sumTokens [] = 0 := rfl

theorem sumTokens_cons (m : ScoredMemory) (l : List ScoredMemory) :
    sumTokens (m :: l) = m.tokens + sumTokens l := by
  simp [sumTokens]

theorem allocGo_sum (l : List ScoredMemory) : ∀ (r : Int) (f : Bool),
    sumTokens (allocGo l r f).1 = r - (allocGo l r f).2 := by
  induction l with
  | nil => intro r f; simp [allocGo, sumTokens]
  | cons m t ih =>
    intro r f
    by_cases h1 : m.tokens ≤ r
    · simp only [allocGo, if_pos h1]
      rw [sumTokens_cons, ih]
      ring
    · by_cases h2 : f ∧ 0 < r
      · simp only [allocGo, if_neg h1, if_pos h2]
        simp [sumTokens_cons, sumTokens_nil, truncMem]
      · simp only [allocGo, if_neg h1, if_neg h2]
        exact ih r false

theorem allocGo_rem_nonneg (l : List ScoredMemory) : ∀ (r : Int) (f : Bool),
    0 ≤ r → 0 ≤ (allocGo l r f).2 := by
  induction l with
  | nil => intro r f h; simpa [allocGo] using h
  | cons m t ih =>
    intro r f h
    by_cases h1 : m.tokens ≤ r
    · simp only [allocGo, if_pos h1]
      exact ih _ false (by omega)
    · by_cases h2 : f ∧ 0 < r
      · simp [allocGo, if_neg h1, if_pos h2]
      · simp only [allocGo, if_neg h1, if_neg h2]
        exact ih r false h

theorem allocGo_ids_sublist (l : List ScoredMemory) : ∀ (r : Int) (f : Bool),
    List.Sublist ((allocGo l r f).1.map (·.id)) (l.map (·.id)) := by
  induction l with
  | nil => intro r f; simp [allocGo]
  | cons m t ih =>
    intro r f
    by_cases h1 : m.tokens ≤ r
    · simp only [allocGo, if_pos h1, List.map_cons]
      exact List.Sublist.cons₂ _ (ih _ false)
    · by_cases h2 : f ∧ 0 < r
      · simp only [allocGo, if_neg h1, if_pos h2, List.map_cons]
        exact List.Sublist.cons₂ _ (List.nil_sublist _)
      · simp only [allocGo, if_neg h1, if_neg h2, List.map_cons]
        exact List.Sublist.cons _ (ih r false)

theorem allocGo_length_le (l : List ScoredMemory) (r : Int) (f : Bool) :
    (allocGo l r f).1.length ≤ l.length := by
  have h := (allocGo_ids_sublist l r f).length_le
  simpa using h

theorem allocGo_all_of_all (l : List ScoredMemory) : ∀ (r₁ r₂ : Int) (f₁ f₂ : Bool),
    r₁ ≤ r₂ → (allocGo l r₁ f₁).1 = l → (allocGo l r₂ f₂).1 = l := by
  induction l with
  | nil => intro r₁ r₂ f₁ f₂ _ _; simp [allocGo]
  | cons m t ih =>
    intro r₁ r₂ f₁ f₂ hle h
    by_cases h1 : m.tokens ≤ r₁
    · simp only [allocGo, if_pos h1] at h
      have ht : (allocGo t (r₁ - m.tokens) false).1 = t := by
        exact (List.cons.injEq .. ▸ h).2
      have h1' : m.tokens ≤ r₂ := le_trans h1 hle
      simp only [allocGo, if_pos h1']
      have := ih (r₁ - m.tokens) (r₂ - m.tokens) false false (by omega) ht
      simp [this]
    · by_cases h2 : f₁ ∧ 0 < r₁
      · simp only [allocGo, if_neg h1, if_pos h2] at h
        have hhd : truncMem m r₁ = m := (List.cons.injEq .. ▸ h).1
        have : (truncMem m r₁).tokens = m.tokens := congrArg ScoredMemory.tokens hhd
        simp only [truncMem] at this
        omega
      · simp only [allocGo, if_neg h1, if_neg h2] at h
        have := allocGo_length_le t r₁ false
        rw [h] at this
        simp at this

theorem allocGo_nonpos (l : List ScoredMemory) : ∀ (r : Int) (f : Bool),
    (∀ m ∈ l, 1 ≤ m.tokens) → r ≤ 0 → allocGo l r f = ([], r) := by
  induction l with
  | nil => intro r f _ _; simp [allocGo]
  | cons m t ih =>
    intro r f hall hr
    have hm : 1 ≤ m.tokens := hall m (List.mem_cons_self ..)
    have h1 : ¬ m.tokens ≤ r := by omega
    have h2 : ¬ (f ∧ 0 < r) := by
      rintro ⟨-, h⟩; omega
    simp only [allocGo, if_neg h1, if_neg h2]
    exact ih r false (fun x hx => hall x (List.mem_cons_of_mem _ hx)) hr

theorem one_le_estimateTokens {s : String} (h : s.length ≠ 0) : 1 ≤ estimateTokens s := by
  unfold estimateTokens
  have : 1 ≤ (s.length + CHARS_PER_TOKEN - 1) / CHARS_PER_TOKEN := by
    rw [Nat.one_le_div_iff (by simp [CHARS_PER_TOKEN])]
    simp only [CHARS_PER_TOKEN]
    omega
  exact_mod_cast this

/-- C5 (amended): for candidates whose token cost is derived from non-empty
content, a non-positive budget yields an empty selection and zero tokens used. -/
theorem c5_zero_budget (mems : List ScoredMemory) (maxTokens : Int)
    (hd : ∀ m ∈ mems, m.tokens = estimateTokens m.content)
    (hne : ∀ m ∈ mems, m.content.length ≠ 0)
    (h : maxTokens ≤ 0) :
    applyTokenBudget mems maxTokens = ⟨[], 0⟩ := by
  have hall : ∀ m ∈ mems, 1 ≤ m.tokens := by
    intro m hm
    rw [hd m hm]
    exact one_le_estimateTokens (hne m hm)
  simp [applyTokenBudget, allocGo_nonpos mems maxTokens true hall h]

theorem c5_witness :
    ((∀ m ∈ [(⟨"a", "abcd", "t", none, [], 0, "", estimateTokens "abcd"⟩ : ScoredMemory)],
        m.tokens = estimateTokens m.content)) ∧
    applyTokenBudget [⟨"a", "abcd", "t", none, [], 0, "", estimateTokens "abcd"⟩] 0 = ⟨[], 0⟩ :=
  ⟨by decide, c5_zero_budget _ 0 (by decide) (by decide) (by decide)⟩

/-- C5 counterexample: a zero-cost (empty-content) candidate is selected even
at budget 0, so the selection is not empty. -/
theorem c5_counterexample :
    (⟨"e", "", "note", none, [], 0, "", estimateTokens ""⟩ : ScoredMemory).tokens
        = estimateTokens "" ∧
    (applyTokenBudget [⟨"e", "", "note", none, [], 0, "", estimateTokens ""⟩] 0).selected ≠ [] ∧
    (applyTokenBudget [⟨"e", "", "note", none, [], 0, "", estimateTokens ""⟩] 0).tokensUsed = 0 := by
  decide

/-- C3: a candidate that does not fit is truncated only when it is the first
candidate and the remaining budget is positive — its content is cut to
`remaining * CHARS_PER_TOKEN` characters plus the truncation marker, its cost
is set to exactly the remaining budget, it is included, and iteration stops;
a non-first candidate (or a first one with non-positive remaining budget) is
skipped and iteration continues. -/
theorem c3_skip_vs_truncate :
    (∀ (m : ScoredMemory) (rest : List ScoredMemory) (maxTokens : Int),
        0 < maxTokens → maxTokens < m.tokens →
        applyTokenBudget (m :: rest) maxTokens =
          ⟨[{ m with
              content := m.content.take (maxTokens * (CHARS_PER_TOKEN : Int)).toNat ++ "…"
              tokens := maxTokens }], maxTokens⟩) ∧
    (∀ (m : ScoredMemory) (rest : List ScoredMemory) (r : Int),
        r < m.tokens → allocGo (m :: rest) r false = allocGo rest r false) ∧
    (∀ (m : ScoredMemory) (rest : List ScoredMemory) (r : Int) (f : Bool),
        r < m.tokens → ¬ 0 < r → allocGo (m :: rest) r f = allocGo rest r false) := by
  refine ⟨?_, ?_, ?_⟩
  · intro m rest maxTokens h0 hgt
    have h1 : ¬ m.tokens ≤ maxTokens := by omega
    simp [applyTokenBudget, allocGo, if_neg h1, h0, truncMem]
  · intro m rest r hgt
    have h1 : ¬ m.tokens ≤ r := by omega
    simp [allocGo, if_neg h1]
  · intro m rest r f hgt hnp
    have h1 : ¬ m.tokens ≤ r := by omega
    have h2 : ¬ (f ∧ 0 < r) := by rintro ⟨-, h⟩; exact hnp h
    simp [allocGo, if_neg h1, if_neg h2]

theorem c3_witness :
    applyTokenBudget
        [⟨"a", "x", "t", none, [], 0, "", 100⟩, ⟨"b", "y", "t", none, [], 0, "", 10⟩] 30 =
      ⟨[{ (⟨"a", "x", "t", none, [], 0, "", 100⟩ : ScoredMemory) with
          content := ("x" : String).take ((30 : Int) * (CHARS_PER_TOKEN : Int)).toNat ++ "…"
          tokens := 30 }], 30⟩ ∧
    allocGo [⟨"b", "y", "t", none, [], 0, "", 10⟩] 5 false = allocGo [] 5 false ∧
    allocGo [⟨"b", "y", "t", none, [], 0, "", 10⟩] 0 true = allocGo [] 0 false :=
  ⟨c3_skip_vs_truncate.1 _ [⟨"b", "y", "t", none, [], 0, "", 10⟩] 30 (by decide) (by decide),
   c3_skip_vs_truncate.2.1 _ [] 5 (by decide),
   c3_skip_vs_truncate.2.2 _ [] 0 true (by decide) (by decide)⟩

/-- C10 counterexample: at budget 5 the sole cost-10 candidate is truncated,
and the truncated record is not an element of the input, so the selection is
not a subsequence of the input. -/
theorem c10_counterexample :
    (0 : Int) ≤ 5 ∧
    (0 : Int) ≤ (⟨"m1", "", "t", none, [], 0, "", 10⟩ : ScoredMemory).tokens ∧
    ¬ List.Sublist (applyTokenBudget [⟨"m1", "", "t", none, [], 0, "", 10⟩] 5).selected
        [⟨"m1", "", "t", none, [], 0, "", 10⟩] := by
  decide

/-- C10 (amended): for non-negative costs and budget, the selected token
costs (including an adjusted truncated-first cost) sum exactly to
`tokensUsed`, `tokensUsed ≤ maxTokens`, and the selected ids form a
subsequence of the input ids in input order. -/
theorem c10_budget_conservation (mems : List ScoredMemory) (maxTokens : Int)
    (h0 : 0 ≤ maxTokens) (hc : ∀ m ∈ mems, 0 ≤ m.tokens) :
    sumTokens (applyTokenBudget mems maxTokens).selected
        = (applyTokenBudget mems maxTokens).tokensUsed ∧
    (applyTokenBudget mems maxTokens).tokensUsed ≤ maxTokens ∧
    List.Sublist ((applyTokenBudget mems maxTokens).selected.map (·.id)) (mems.map (·.id)) := by
  refine ⟨?_, ?_, ?_⟩
  · simpa [applyTokenBudget] using allocGo_sum mems maxTokens true
  · have := allocGo_rem_nonneg mems maxTokens true h0
    simp only [applyTokenBudget]
    omega
  · simpa [applyTokenBudget] using allocGo_ids_sublist mems maxTokens true

theorem c10_witness :
    sumTokens (applyTokenBudget
        [⟨"a", "", "t", none, [], 0, "", 3⟩, ⟨"b", "", "t", none, [], 0, "", 9⟩] 10).selected
      = (applyTokenBudget
        [⟨"a", "", "t", none, [], 0, "", 3⟩, ⟨"b", "", "t", none, [], 0, "", 9⟩] 10).tokensUsed ∧
    (applyTokenBudget
        [⟨"a", "", "t", none, [], 0, "", 3⟩, ⟨"b", "", "t", none, [], 0, "", 9⟩] 10).tokensUsed
      ≤ 10 :=
  ⟨(c10_budget_conservation _ 10 (by decide) (by decide)).1,
   (c10_budget_conservation _ 10 (by decide) (by decide)).2.1⟩

/-- C1 counterexample (claim as stated is false): costs [6,5,4], budgets 10 < 11, no truncation in either
run, yet the cost-4 candidate selected at budget 10 is dropped at budget 11 and
the budget-10 selection is not a prefix of the budget-11 selection. -/
theorem c1_counterexample :
    (applyTokenBudget [⟨"a", "", "t", none, [], 0, "", 6⟩, ⟨"b", "", "t", none, [], 0, "", 5⟩,
        ⟨"c", "", "t", none, [], 0, "", 4⟩] 10).selected
      = [⟨"a", "", "t", none, [], 0, "", 6⟩, ⟨"c", "", "t", none, [], 0, "", 4⟩] ∧
    (applyTokenBudget [⟨"a", "", "t", none, [], 0, "", 6⟩, ⟨"b", "", "t", none, [], 0, "", 5⟩,
        ⟨"c", "", "t", none, [], 0, "", 4⟩] 11).selected
      = [⟨"a", "", "t", none, [], 0, "", 6⟩, ⟨"b", "", "t", none, [], 0, "", 5⟩] ∧
    (⟨"c", "", "t", none, [], 0, "", 4⟩ : ScoredMemory) ∉
      (applyTokenBudget [⟨"a", "", "t", none, [], 0, "", 6⟩, ⟨"b", "", "t", none, [], 0, "", 5⟩,
        ⟨"c", "", "t", none, [], 0, "", 4⟩] 11).selected ∧
    ¬ ((applyTokenBudget [⟨"a", "", "t", none, [], 0, "", 6⟩, ⟨"b", "", "t", none, [], 0, "", 5⟩,
        ⟨"c", "", "t", none, [], 0, "", 4⟩] 10).selected <+:
       (applyTokenBudget [⟨"a", "", "t", none, [], 0, "", 6⟩, ⟨"b", "", "t", none, [], 0, "", 5⟩,
        ⟨"c", "", "t", none, [], 0, "", 4⟩] 11).selected) := by
  decide

/-- C1 (amended): allocator monotonicity — prefix stability holds when the smaller-budget run selects
every candidate whole (no skip and no truncation). -/
theorem c1_monotone (mems : List ScoredMemory) (B1 B2 : Int) (hle : B1 ≤ B2)
    (hall : (applyTokenBudget mems B1).selected = mems) :
    (applyTokenBudget mems B2).selected = mems ∧
    (applyTokenBudget mems B1).selected <+: (applyTokenBudget mems B2).selected := by
  have h1 : (allocGo mems B1 true).1 = mems := by simpa [applyTokenBudget] using hall
  have h2 := allocGo_all_of_all mems B1 B2 true true hle h1
  refine ⟨by simpa [applyTokenBudget] using h2, ?_⟩
  simp only [applyTokenBudget, h1, h2]
  exact List.prefix_refl _

theorem c1_witness :
    (applyTokenBudget [⟨"a", "", "t", none, [], 0, "", 1⟩, ⟨"b", "", "t", none, [], 0, "", 2⟩]
        3).selected
      = [⟨"a", "", "t", none, [], 0, "", 1⟩, ⟨"b", "", "t", none, [], 0, "", 2⟩] ∧
    (applyTokenBudget [⟨"a", "", "t", none, [], 0, "", 1⟩, ⟨"b", "", "t", none, [], 0, "", 2⟩]
        5).selected
      = [⟨"a", "", "t", none, [], 0, "", 1⟩, ⟨"b", "", "t", none, [], 0, "", 2⟩] :=
  ⟨by decide, (c1_monotone _ 3 5 (by decide) (by decide)).1⟩

/-- C7: `isDuplicate` returns true iff the nearest-neighbour query succeeded
and its top distance is strictly below the 0.05 threshold; a distance exactly
at the threshold, a missing distance, or a query failure all yield false. -/
theorem c7_duplicate_threshold :
    (∀ q : DupQuery, isDuplicate q = true ↔ ∃ d : ℚ, q = Except.ok (some d) ∧ d < 0.05) ∧
    isDuplicate (Except.ok (some 0.05)) = false := by
  constructor
  · intro q
    match q with
    | .error e => simp [isDuplicate]
    | .ok none => simp [isDuplicate]
    | .ok (some d) => simp [isDuplicate]
  · simp [isDuplicate]

/-- C9: when the liveness probe responds successfully, `startChromaServer`
returns Ready immediately and neither the native spawn nor either docker
launch path runs. -/
theorem c9_fast_path (env : SupEnv) (h : env.firstProbe = ProbeRes.ok) :
    startChromaServer env = (Except.ok (), [SupEv.probe]) ∧
    SupEv.spawnNative ∉ (startChromaServer env).2 ∧
    SupEv.dockerStart ∉ (startChromaServer env).2 ∧
    SupEv.dockerRun ∉ (startChromaServer env).2 := by
  simp [startChromaServer, h]

theorem c9_witness :
    startChromaServer ⟨ProbeRes.ok, false, false, fun _ => ProbeRes.err⟩
      = (Except.ok (), [SupEv.probe]) :=
  (c9_fast_path ⟨ProbeRes.ok, false, false, fun _ => ProbeRes.err⟩ rfl).1

theorem take_chunk (d : List α) (B m : Nat) :
    d.take (min B m) ++ (d.drop B).take (m - B) = d.take m := by
  rcases le_or_lt m B with h | h
  · have h1 : min B m = m := Nat.min_eq_right h
    have h2 : m - B = 0 := Nat.sub_eq_zero_of_le h
    simp [h1, h2]
  · have h1 : min B m = B := Nat.min_eq_left h.le
    have h2 : m = B + (m - B) := by omega
    rw [h1]
    conv_rhs => rw [h2]
    rw [List.take_add]

theorem readLoop_events (env : MigEnv) (count : Nat) :
    ∀ (fuel offset : Nat) (evs : List MigEv) (acc : MigBatch),
      readLoop env count offset fuel = .ok (evs, acc) →
      ∀ e ∈ evs, ∃ o, e = MigEv.getBatchEv o := by
  intro fuel
  induction fuel with
  | zero =>
    intro offset evs acc h e he
    simp only [readLoop, Except.ok.injEq, Prod.mk.injEq] at h
    obtain ⟨h1, h2⟩ := h
    subst h1
    simp at he
  | succ fuel ih =>
    intro offset evs acc h e he
    simp only [readLoop] at h
    split at h
    · rcases hb : env.getBatch offset with eb | b <;> rw [hb] at h
      · exact absurd h (by simp)
      · rcases hr : readLoop env count (offset + BATCH) fuel with er | ⟨evs', acc'⟩ <;>
          rw [hr] at h
        · exact absurd h (by simp)
        · simp only [Except.ok.injEq, Prod.mk.injEq] at h
          obtain ⟨h1, h2⟩ := h
          subst h1
          rcases List.mem_cons.mp he with rfl | hmem
          · exact ⟨offset, rfl⟩
          · exact ih _ _ _ hr e hmem
    · simp only [Except.ok.injEq, Prod.mk.injEq] at h
      obtain ⟨h1, h2⟩ := h
      subst h1
      simp at he

theorem upsertLoop_ok_of_mem (env : MigEnv) (all : MigBatch) :
    ∀ (fuel i : Nat) (evs : List MigEv), upsertLoop env all i fuel = .ok evs →
      ∀ off a b c d, MigEv.upsertEv off a b c d ∈ evs → env.upsertResult off = Except.ok () := by
  intro fuel
  induction fuel with
  | zero =>
    intro i evs h off a b c d hm
    simp only [upsertLoop, Except.ok.injEq] at h
    subst h
    simp at hm
  | succ fuel ih =>
    intro i evs h off a b c d hm
    simp only [upsertLoop] at h
    split at h
    · rcases hu : env.upsertResult i with eu | u <;> rw [hu] at h
      · exact absurd h (by simp)
      · rcases hr : upsertLoop env all (i + BATCH) fuel with er | evs' <;> rw [hr] at h
        · exact absurd h (by simp)
        · simp only [Except.ok.injEq] at h
          subst h
          rcases List.mem_cons.mp hm with heq | hmem
          · cases heq
            cases u
            exact hu
          · exact ih _ _ hr off a b c d hmem
    · simp only [Except.ok.injEq] at h
      subst h
      simp at hm

theorem upsertLoop_joins (env : MigEnv) (all : MigBatch)
    (hok : ∀ i, env.upsertResult i = Except.ok ()) :
    ∀ (fuel i : Nat), all.ids.length - i ≤ fuel →
    ∃ evs, upsertLoop env all i fuel = .ok evs ∧
      upsertedIds evs = (all.ids.drop i).take (all.ids.length - i) ∧
      upsertedDocs evs = (all.documents.drop i).take (all.ids.length - i) ∧
      upsertedMetas evs = (all.metadatas.drop i).take (all.ids.length - i) ∧
      upsertedEmbs evs = (all.embeddings.drop i).take (all.ids.length - i) ∧
      ∀ e ∈ evs, ∃ o a b c d, e = MigEv.upsertEv o a b c d := by
  intro fuel
  induction fuel with
  | zero =>
    intro i hfu
    have hge : all.ids.length ≤ i := by omega
    have h0 : all.ids.length - i = 0 := by omega
    refine ⟨[], ?_, ?_, ?_, ?_, ?_, by simp⟩ <;>
      simp [upsertLoop, upsertedIds, upsertedDocs, upsertedMetas, upsertedEmbs, h0]
  | succ fuel ih =>
    intro i hfu
    by_cases hlt : i < all.ids.length
    · have hB : BATCH = 500 := rfl
      obtain ⟨evs', hup', hid', hdoc', hmeta', hemb', hshape'⟩ :=
        ih (i + BATCH) (by omega)
      refine ⟨MigEv.upsertEv i
          (sliceL all.ids i (min (i + BATCH) all.ids.length))
          (sliceL all.documents i (min (i + BATCH) all.ids.length))
          (sliceL all.metadatas i (min (i + BATCH) all.ids.length))
          (sliceL all.embeddings i (min (i + BATCH) all.ids.length)) :: evs', ?_, ?_, ?_, ?_, ?_, ?_⟩
      · simp only [upsertLoop, if_pos hlt, hok i, hup']
      · simp only [upsertedIds, List.filterMap_cons, List.flatten_cons] at *
        rw [hid', sliceL]
        have hm : min (i + BATCH) all.ids.length - i = min BATCH (all.ids.length - i) := by omega
        have hsub : all.ids.length - (i + BATCH) = all.ids.length - i - BATCH := by omega
        rw [hm, hsub, ← List.drop_drop, take_chunk]
      · simp only [upsertedDocs, List.filterMap_cons, List.flatten_cons] at *
        rw [hdoc', sliceL]
        have hm : min (i + BATCH) all.ids.length - i = min BATCH (all.ids.length - i) := by omega
        have hsub : all.ids.length - (i + BATCH) = all.ids.length - i - BATCH := by omega
        rw [hm, hsub, ← List.drop_drop, take_chunk]
      · simp only [upsertedMetas, List.filterMap_cons, List.flatten_cons] at *
        rw [hmeta', sliceL]
        have hm : min (i + BATCH) all.ids.length - i = min BATCH (all.ids.length - i) := by omega
        have hsub : all.ids.length - (i + BATCH) = all.ids.length - i - BATCH := by omega
        rw [hm, hsub, ← List.drop_drop, take_chunk]
      · simp only [upsertedEmbs, List.filterMap_cons, List.flatten_cons] at *
        rw [hemb', sliceL]
        have hm : min (i + BATCH) all.ids.length - i = min BATCH (all.ids.length - i) := by omega
        have hsub : all.ids.length - (i + BATCH) = all.ids.length - i - BATCH := by omega
        rw [hm, hsub, ← List.drop_drop, take_chunk]
      · intro e he
        rcases List.mem_cons.mp he with rfl | hmem
        · exact ⟨i, _, _, _, _, rfl⟩
        · exact hshape' e hmem
    · have h0 : all.ids.length - i = 0 := by omega
      refine ⟨[], ?_, ?_, ?_, ?_, ?_, by simp⟩ <;>
        simp [upsertLoop, if_neg hlt, upsertedIds, upsertedDocs, upsertedMetas, upsertedEmbs, h0]

theorem goodEnv_getBatch (rs : List MemRec) (off : Nat) :
    (goodEnv rs).getBatch off =
      .ok ⟨((rs.drop off).take BATCH).map (·.id),
           ((rs.drop off).take BATCH).map (·.document),
           ((rs.drop off).take BATCH).map (·.metadata),
           ((rs.drop off).take BATCH).map (·.embedding)⟩ := rfl

theorem readLoop_good (rs : List MemRec) :
    ∀ (fuel offset : Nat), rs.length - offset ≤ fuel →
    ∃ evs, readLoop (goodEnv rs) rs.length offset fuel =
        .ok (evs, ⟨(rs.drop offset).map (·.id), (rs.drop offset).map (·.document),
                   (rs.drop offset).map (·.metadata), (rs.drop offset).map (·.embedding)⟩) ∧
      ∀ e ∈ evs, ∃ o, e = MigEv.getBatchEv o := by
  intro fuel
  induction fuel with
  | zero =>
    intro offset hfu
    have hge : rs.length ≤ offset := by omega
    have hnil : rs.drop offset = [] := List.drop_eq_nil_of_le hge
    exact ⟨[], by simp [readLoop, hnil], by simp⟩
  | succ fuel ih =>
    intro offset hfu
    by_cases hlt : offset < rs.length
    · have hB : BATCH = 500 := rfl
      obtain ⟨evs', hr', hshape'⟩ := ih (offset + BATCH) (by omega)
      have hdd : ∀ {α : Type} (f : MemRec → α),
          ((rs.drop offset).take BATCH).map f ++ (rs.drop (offset + BATCH)).map f
            = (rs.drop offset).map f := by
        intro α f
        rw [← List.drop_drop, ← List.map_append, List.take_append_drop]
      refine ⟨MigEv.getBatchEv offset :: evs', ?_, ?_⟩
      · simp only [readLoop, if_pos hlt, goodEnv_getBatch, hr']
        simp [hdd]
      · intro e he
        rcases List.mem_cons.mp he with rfl | hmem
        · exact ⟨offset, rfl⟩
        · exact hshape' e hmem
    · have hnil : rs.drop offset = [] := List.drop_eq_nil_of_le (by omega)
      exact ⟨[], by simp [readLoop, if_neg hlt, hnil], by simp⟩

theorem goodEnv_marker (rs : List MemRec) : (goodEnv rs).markerExists = false := rfl

theorem goodEnv_listCols (rs : List MemRec) :
    (goodEnv rs).listCollections = .ok [COLLECTION_NAME] := rfl

theorem goodEnv_getCol (rs : List MemRec) : (goodEnv rs).getCollection = .ok () := rfl

theorem goodEnv_count (rs : List MemRec) : (goodEnv rs).countResult = .ok rs.length := rfl

theorem goodEnv_delete (rs : List MemRec) : (goodEnv rs).deleteResult = .ok () := rfl

theorem goodEnv_create (rs : List MemRec) : (goodEnv rs).createResult = .ok () := rfl

theorem goodEnv_writeMarker (rs : List MemRec) : (goodEnv rs).writeMarkerResult = .ok () := rfl

theorem migrateBody_good (rs : List MemRec) (hne : rs ≠ []) :
    ∃ revs uevs,
      migrateBody (goodEnv rs) =
        .ok ([.listCols, .getCol, .countEv rs.length] ++ revs
              ++ [.deleteCol, .createCosine] ++ uevs ++ [.markerWrite], true) ∧
      (∀ e ∈ revs, ∃ o, e = MigEv.getBatchEv o) ∧
      upsertedIds uevs = rs.map (·.id) ∧
      upsertedDocs uevs = rs.map (·.document) ∧
      upsertedMetas uevs = rs.map (·.metadata) ∧
      upsertedEmbs uevs = rs.map (·.embedding) ∧
      (∀ e ∈ uevs, ∃ o a b c d, e = MigEv.upsertEv o a b c d) := by
  have hn : rs.length ≠ 0 := by simpa using hne
  obtain ⟨revs, hread, hrshape⟩ := readLoop_good rs rs.length 0 (by omega)
  simp only [List.drop_zero] at hread
  obtain ⟨uevs, hup, hid, hdoc, hmeta, hemb, hushape⟩ :=
    upsertLoop_joins (goodEnv rs)
      ⟨rs.map (·.id), rs.map (·.document), rs.map (·.metadata), rs.map (·.embedding)⟩
      (fun _ => rfl) (rs.map (·.id)).length 0 (by simp)
  have htk : ∀ {α : Type} (f : MemRec → α), List.take rs.length (rs.map f) = rs.map f :=
    fun f => List.take_of_length_le (by simp)
  simp only [List.drop_zero, Nat.sub_zero, List.length_map] at hup hid hdoc hmeta hemb
  simp only [htk] at hid hdoc hmeta hemb
  refine ⟨revs, uevs, ?_, hrshape, hid, hdoc, hmeta, hemb, hushape⟩
  have hc : ([COLLECTION_NAME].contains COLLECTION_NAME) = true := by decide
  simp only [migrateBody, goodEnv_listCols, goodEnv_getCol, goodEnv_count, goodEnv_delete,
    goodEnv_create, goodEnv_writeMarker, hc, if_true, hread, List.length_map, hup]
  simp [hn]

theorem upsertedIds_append (a b : List MigEv) :
    upsertedIds (a ++ b) = upsertedIds a ++ upsertedIds b := by
  simp [upsertedIds]

theorem upsertedDocs_append (a b : List MigEv) :
    upsertedDocs (a ++ b) = upsertedDocs a ++ upsertedDocs b := by
  simp [upsertedDocs]

theorem upsertedMetas_append (a b : List MigEv) :
    upsertedMetas (a ++ b) = upsertedMetas a ++ upsertedMetas b := by
  simp [upsertedMetas]

theorem upsertedEmbs_append (a b : List MigEv) :
    upsertedEmbs (a ++ b) = upsertedEmbs a ++ upsertedEmbs b := by
  simp [upsertedEmbs]

theorem upsertedIds_of_reads {revs : List MigEv}
    (h : ∀ e ∈ revs, ∃ o, e = MigEv.getBatchEv o) : upsertedIds revs = [] := by
  have : revs.filterMap (fun e => match e with
      | MigEv.upsertEv _ ids _ _ _ => some ids | _ => none) = [] :=
    List.filterMap_eq_nil_iff.mpr (fun e he => by obtain ⟨o, rfl⟩ := h e he; rfl)
  simp [upsertedIds, this]

theorem upsertedDocs_of_reads {revs : List MigEv}
    (h : ∀ e ∈ revs, ∃ o, e = MigEv.getBatchEv o) : upsertedDocs revs = [] := by
  have : revs.filterMap (fun e => match e with
      | MigEv.upsertEv _ _ ds _ _ => some ds | _ => none) = [] :=
    List.filterMap_eq_nil_iff.mpr (fun e he => by obtain ⟨o, rfl⟩ := h e he; rfl)
  simp [upsertedDocs, this]

theorem upsertedMetas_of_reads {revs : List MigEv}
    (h : ∀ e ∈ revs, ∃ o, e = MigEv.getBatchEv o) : upsertedMetas revs = [] := by
  have : revs.filterMap (fun e => match e with
      | MigEv.upsertEv _ _ _ ms _ => some ms | _ => none) = [] :=
    List.filterMap_eq_nil_iff.mpr (fun e he => by obtain ⟨o, rfl⟩ := h e he; rfl)
  simp [upsertedMetas, this]

theorem upsertedEmbs_of_reads {revs : List MigEv}
    (h : ∀ e ∈ revs, ∃ o, e = MigEv.getBatchEv o) : upsertedEmbs revs = [] := by
  have : revs.filterMap (fun e => match e with
      | MigEv.upsertEv _ _ _ _ es => some es | _ => none) = [] :=
    List.filterMap_eq_nil_iff.mpr (fun e he => by obtain ⟨o, rfl⟩ := h e he; rfl)
  simp [upsertedEmbs, this]

/-- C6: on the non-empty migration path every re-inserted embedding equals the
embedding read from the old collection at the same index (ids, documents and
metadatas likewise, in read order), and no embedding-provider call occurs. -/
theorem c6_embedding_reuse (rs : List MemRec) :
    upsertedIds (migrateToCosinIfNeeded (goodEnv rs)).events = rs.map (·.id) ∧
    upsertedDocs (migrateToCosinIfNeeded (goodEnv rs)).events = rs.map (·.document) ∧
    upsertedMetas (migrateToCosinIfNeeded (goodEnv rs)).events = rs.map (·.metadata) ∧
    upsertedEmbs (migrateToCosinIfNeeded (goodEnv rs)).events = rs.map (·.embedding) ∧
    MigEv.embedCall ∉ (migrateToCosinIfNeeded (goodEnv rs)).events := by
  rcases eq_or_ne rs [] with rfl | hne
  · exact ⟨by decide, by decide, by decide, by decide, by decide⟩
  · obtain ⟨revs, uevs, hbody, hrshape, hid, hdoc, hmeta, hemb, hushape⟩ :=
      migrateBody_good rs hne
    have hevents : (migrateToCosinIfNeeded (goodEnv rs)).events =
        [.listCols, .getCol, .countEv rs.length] ++ revs
          ++ [.deleteCol, .createCosine] ++ uevs ++ [.markerWrite] := by
      simp [migrateToCosinIfNeeded, goodEnv_marker, hbody]
    have hrev : MigEv.embedCall ∉ revs := by
      intro h
      obtain ⟨o, heq⟩ := hrshape _ h
      simp at heq
    have huev : MigEv.embedCall ∉ uevs := by
      intro h
      obtain ⟨o, a, b, c, d, heq⟩ := hushape _ h
      simp at heq
    refine ⟨?_, ?_, ?_, ?_, ?_⟩
    · rw [hevents]
      simp only [upsertedIds_append, upsertedIds_of_reads hrshape, hid]
      simp [upsertedIds]
    · rw [hevents]
      simp only [upsertedDocs_append, upsertedDocs_of_reads hrshape, hdoc]
      simp [upsertedDocs]
    · rw [hevents]
      simp only [upsertedMetas_append, upsertedMetas_of_reads hrshape, hmeta]
      simp [upsertedMetas]
    · rw [hevents]
      simp only [upsertedEmbs_append, upsertedEmbs_of_reads hrshape, hemb]
      simp [upsertedEmbs]
    · rw [hevents]
      simp [List.mem_append, hrev, huev]

theorem migrateBody_upserts (env : MigEnv) (evs : List MigEv) (mk : Bool)
    (h : migrateBody env = .ok (evs, mk)) :
    ∀ off a b c d, MigEv.upsertEv off a b c d ∈ evs → env.upsertResult off = Except.ok () := by
  intro off a b c d hm
  unfold migrateBody at h
  rcases hlc : env.listCollections with e | cols <;> simp only [hlc] at h
  · exact absurd h (by simp)
  by_cases hct : cols.contains COLLECTION_NAME = true
  case neg =>
    rw [if_neg hct] at h
    rcases hw : env.writeMarkerResult with e | u <;> simp only [hw] at h
    · exact absurd h (by simp)
    · simp only [Except.ok.injEq, Prod.mk.injEq] at h
      obtain ⟨h1, -⟩ := h
      subst h1
      simp at hm
  case pos =>
    rw [if_pos hct] at h
    rcases hgc : env.getCollection with e | u <;> simp only [hgc] at h
    · exact absurd h (by simp)
    rcases hcnt : env.countResult with e | n <;> simp only [hcnt] at h
    · exact absurd h (by simp)
    by_cases hn : n = 0
    · rw [if_pos hn] at h
      rcases hd : env.deleteResult with e | u <;> simp only [hd] at h
      · exact absurd h (by simp)
      rcases hw : env.writeMarkerResult with e | u <;> simp only [hw] at h
      · exact absurd h (by simp)
      simp only [Except.ok.injEq, Prod.mk.injEq] at h
      obtain ⟨h1, -⟩ := h
      subst h1
      simp at hm
    · rw [if_neg hn] at h
      rcases hr : readLoop env n 0 n with e | ⟨revs, all⟩ <;> simp only [hr] at h
      · exact absurd h (by simp)
      rcases hd : env.deleteResult with e | u <;> simp only [hd] at h
      · exact absurd h (by simp)
      rcases hc : env.createResult with e | u <;> simp only [hc] at h
      · exact absurd h (by simp)
      rcases hu : upsertLoop env all 0 all.ids.length with e | uevs <;> simp only [hu] at h
      · exact absurd h (by simp)
      rcases hw : env.writeMarkerResult with e | u <;> simp only [hw] at h
      · exact absurd h (by simp)
      simp only [Except.ok.injEq, Prod.mk.injEq] at h
      obtain ⟨h1, -⟩ := h
      subst h1
      simp only [List.mem_append, List.mem_cons, List.not_mem_nil, or_false, false_or,
        reduceCtorEq] at hm
      rcases hm with hrev | huev
      · obtain ⟨o, heq⟩ := readLoop_events env n n 0 revs all hr _ hrev
        simp at heq
      · exact upsertLoop_ok_of_mem env all all.ids.length 0 uevs hu off a b c d huev

/-- C2: the caller of migrateToCosinIfNeeded always sees a normal return; a
throw anywhere in the body leaves the marker unwritten; and when the marker
was written, every re-insert batch upsert had completed successfully. -/
theorem c2_migration_atomicity (env : MigEnv) :
    (migrateToCosinIfNeeded env).res = Except.ok () ∧
    (∀ e, migrateBody env = Except.error e →
        (migrateToCosinIfNeeded env).markerWritten = false) ∧
    ((migrateToCosinIfNeeded env).markerWritten = true →
      ∀ off a b c d, MigEv.upsertEv off a b c d ∈ (migrateToCosinIfNeeded env).events →
        env.upsertResult off = Except.ok ()) := by
  refine ⟨?_, ?_, ?_⟩
  · unfold migrateToCosinIfNeeded
    split
    · rfl
    · split <;> rfl
  · intro e he
    unfold migrateToCosinIfNeeded
    split
    · rfl
    · rw [he]
  · intro hmk off a b c d hm
    by_cases hmark : env.markerExists
    · simp [migrateToCosinIfNeeded, hmark] at hmk
    · rcases hb : migrateBody env with e | ⟨evs, mk⟩
      · simp [migrateToCosinIfNeeded, hmark, hb] at hmk
      · simp only [migrateToCosinIfNeeded, hmark, Bool.false_eq_true, if_false, hb] at hm
        exact migrateBody_upserts env evs mk hb off a b c d hm

theorem c2_witness :
    (migrateToCosinIfNeeded (goodEnv [⟨"a", "d", "m", [1]⟩])).res = Except.ok () ∧
    (goodEnv [⟨"a", "d", "m", [1]⟩]).upsertResult 0 = Except.ok () :=
  ⟨(c2_migration_atomicity (goodEnv [⟨"a", "d", "m", [1]⟩])).1,
   (c2_migration_atomicity (goodEnv [⟨"a", "d", "m", [1]⟩])).2.2 (by decide)
     0 ["a"] ["d"] ["m"] [[1]] (by decide)⟩

/-- C4 counterexample: on the empty-collection path, migrateToCosinIfNeeded
deletes the collection and writes the marker but never recreates the
collection — no create event occurs in its run. -/
theorem c4_counterexample :
    (migrateToCosinIfNeeded emptyColEnv).events
        = [.listCols, .getCol, .countEv 0, .deleteCol, .markerWrite] ∧
    (migrateToCosinIfNeeded emptyColEnv).markerWritten = true ∧
    MigEv.createCosine ∉ (migrateToCosinIfNeeded emptyColEnv).events := by
  decide

/-- C4 (amended): with the marker absent, the collection present and empty,
migrateToCosinIfNeeded deletes the collection and writes the marker; the
recreation with the cosine configuration happens immediately afterwards in
initChroma via getOrCreateCollection. -/
theorem c4_empty_collection (env : MigEnv) (hmark : env.markerExists = false)
    (cols : List String) (hlc : env.listCollections = .ok cols)
    (hct : cols.contains COLLECTION_NAME = true)
    (hgc : env.getCollection = .ok ()) (hcnt : env.countResult = .ok 0)
    (hdel : env.deleteResult = .ok ()) (hw : env.writeMarkerResult = .ok ()) :
    (migrateToCosinIfNeeded env).events
        = [.listCols, .getCol, .countEv 0, .deleteCol, .markerWrite] ∧
    (migrateToCosinIfNeeded env).markerWritten = true ∧
    initChromaEvents env
        = [.listCols, .getCol, .countEv 0, .deleteCol, .markerWrite, .createCosine] := by
  have hct' : COLLECTION_NAME ∈ cols := by simpa using hct
  have hbody : migrateBody env
      = .ok ([.listCols, .getCol, .countEv 0, .deleteCol, .markerWrite], true) := by
    simp [migrateBody, hlc, hct', hgc, hcnt, hdel, hw]
  refine ⟨?_, ?_, ?_⟩ <;> simp [migrateToCosinIfNeeded, initChromaEvents, hmark, hbody]

theorem c4_witness :
    (migrateToCosinIfNeeded emptyColEnv).markerWritten = true ∧
    initChromaEvents emptyColEnv
        = [.listCols, .getCol, .countEv 0, .deleteCol, .markerWrite, .createCosine] :=
  ⟨(c4_empty_collection emptyColEnv rfl [COLLECTION_NAME] rfl (by decide) rfl rfl rfl rfl).2.1,
   (c4_empty_collection emptyColEnv rfl [COLLECTION_NAME] rfl (by decide) rfl rfl rfl rfl).2.2⟩

theorem storeGet_upsert (s : SessionStore) (id : String) (r : SessionRec) :
    storeGet (storeUpsert s id r) id = some r := by
  induction s with
  | nil => simp [storeUpsert, storeGet]
  | cons p rest ih =>
    by_cases hp : p.1 == id
    · simp [storeUpsert, storeGet, hp]
    · simp [storeUpsert, storeGet, hp, ih]

theorem storeGet_update (s : SessionStore) (id : String) (r : SessionRec) :
    storeGet (storeUpdate s id r) id = (storeGet s id).map (fun _ => r) := by
  induction s with
  | nil => simp [storeUpdate, storeGet]
  | cons p rest ih =>
    by_cases hp : p.1 == id
    · simp [storeUpdate, storeGet, hp]
    · simp [storeUpdate, storeGet, hp, ih]

/-- C8: the start/track/track/end scenario persists a record with
memory_count 2, the single project and type, the start time written by
startSession, and a strictly later end time. -/
theorem c8_session_round_trip (t0 : Time) (s0 : SessionStore) :
    ∃ r1 r2,
      storeGet (startSession "ses_1" ⟨s0, t0⟩).store "ses_1" = some r1 ∧
      storeGet (endSession "ses_1"
          (trackSave (trackSave ⟨some "ses_1", 0, [], []⟩ "proj-a" "bugfix") "proj-a" "bugfix")
          (startSession "ses_1" ⟨s0, t0⟩)).store "ses_1" = some r2 ∧
      r2.meta.memory_count = 2 ∧
      r2.meta.projects = ["proj-a"] ∧
      r2.meta.types_seen = ["bugfix"] ∧
      r2.meta.start_time = r1.meta.start_time ∧
      r1.meta.start_time = some t0 ∧
      r2.meta.end_time = some (t0 + 1) ∧
      t0 < t0 + 1 := by
  have hst : trackSave (trackSave ⟨some "ses_1", 0, [], []⟩ "proj-a" "bugfix") "proj-a" "bugfix"
      = ⟨some "ses_1", 2, ["proj-a"], ["bugfix"]⟩ := by decide
  rw [hst]
  have h1 : storeGet (startSession "ses_1" ⟨s0, t0⟩).store "ses_1"
      = some ⟨"Session ses_1 started", ⟨"ses_1", some t0, none, 0, [], []⟩⟩ := by
    simp [startSession]
    exact storeGet_upsert s0 "ses_1" _
  refine ⟨⟨"Session ses_1 started", ⟨"ses_1", some t0, none, 0, [], []⟩⟩,
      ⟨sessionSummary "ses_1" ⟨some "ses_1", 2, ["proj-a"], ["bugfix"]⟩,
       ⟨"ses_1", some t0, some (t0 + 1), 2, ["proj-a"], ["bugfix"]⟩⟩,
      h1, ?_, rfl, rfl, rfl, rfl, rfl, rfl, Nat.lt_succ_self t0⟩
  simp only [endSession, h1, storeGet_update]
  simp [startSession, sessionSummary]

end Recall
